import Mathlib

/-!
Shallow embedding of the RSH shell (src/rsh.c) and verification of its
specification claims.  Pure data manipulation (job list, history list,
tokenization, exit-status bookkeeping) is translated into executable Lean
functions; the process/terminal side effects are modelled as explicit
action traces and a small-step transition system on the shell state.
-/

/-- A job record, `struct __job_node` (rsh.c:47-52) without the intrusive
`next` pointer: the list structure carries the links.  `status = 1` encodes
Stopped, any other value Running (rsh.c:243). -/
structure JobNode where
  pid : Int
  command : String
  status : Int
deriving DecidableEq

/-- `__append_job` (rsh.c:101-109): allocates a node and pushes it at the
head of `r->job_buffer` (`new_job->next = r->job_buffer`), no duplicate
check. -/
def append_job (pid : Int) (cmd : String) (status : Int)
    (jobs : List JobNode) : List JobNode :=
  { pid := pid, command := cmd, status := status } :: jobs

/-- `__remove_job` (rsh.c:633-646): walks the list with a pointer-to-pointer,
unlinks the first node whose `pid` matches and returns immediately;
if no node matches, the list is untouched. -/
def remove_job (pid : Int) : List JobNode → List JobNode
  | [] => []
  | j :: rest => if j.pid = pid then rest else j :: remove_job pid rest

/-- Number of job records carrying a given pid. -/
def countPid (pid : Int) (jobs : List JobNode) : Nat :=
  (jobs.map fun j => j.pid).count pid

/-- The Job Table invariant of the spec: at most one record per pid. -/
def atMostOnePerPid (jobs : List JobNode) : Prop :=
  ∀ p : Int, countPid p jobs ≤ 1

/-- `__append_history` (rsh.c:112-141): iterates to the tail of the singly
linked history list (which has a dummy head node) and links the new node
there.  Modelled as appending at the end of the list of real entries. -/
def append_history (hist : List String) (line : String) : List String :=
  hist ++ [line]

/-- `__display_history` (rsh.c:150-162): walks from `hist_buffer->next`
(first real entry) to the tail, printing each stored command in order. -/
def display_history (hist : List String) : List String :=
  hist

/-- History contents after a sequence of submitted lines: `__parse_input`
calls `__append_history(*input_ptr)` on every accepted line (rsh.c:548),
with no emptiness check, before tokenizing. -/
def submit_lines (lines : List String) : List String :=
  lines.foldl append_history []

/-- Where control of a forked child ends up after the exec attempt. -/
inductive ChildCont where
  | execImage
  | exited (code : Nat)
  | fallsThrough
deriving DecidableEq

/-- Child branch of the single-command path (rsh.c:318-328): `execvp`
replaces the image on success; on failure `perror` then `_exit(127)`. -/
def singleCommandChild (execOk : Bool) : ChildCont :=
  if execOk then ChildCont.execImage else ChildCont.exited 127

/-- Child branch of a pipeline stage (rsh.c:401-418): after wiring the pipe
ends the child calls `execvp`; there is no statement after it inside the
`if (pid == 0)` block, so on failure control falls through to the code
below (rsh.c:420 onwards), i.e. the child keeps running shell logic. -/
def pipelineStageChild (execOk : Bool) : ChildCont :=
  if execOk then ChildCont.execImage else ChildCont.fallsThrough

/-- `WEXITSTATUS` of a raw wait status: `(status >> 8) & 0xff`, written with
division and remainder. -/
def wexitstatus (s : Nat) : Nat :=
  (s / 256) % 256

/-- The wait loop of `__handle_pipeline` (rsh.c:439-442): `status` starts at
0 and each `waitpid(pids[i], &status, 0)` overwrites it, so the value left
behind is the status written by the last wait. -/
def pipelineWaitStatus (statuses : List Nat) : Nat :=
  statuses.foldl (fun _ s => s) 0

/-- Result of `__handle_pipeline` after all stages forked (rsh.c:444):
`WEXITSTATUS` of the final contents of `status`. -/
def handle_pipeline_result (statuses : List Nat) : Nat :=
  wexitstatus (pipelineWaitStatus statuses)

/-- Terminal discipline, `struct termios` restricted to the four flag words
the program touches (rsh.c:177-180). -/
structure Termios where
  c_iflag : Nat
  c_oflag : Nat
  c_cflag : Nat
  c_lflag : Nat
deriving DecidableEq

def BRKINT : Nat := 0x0002
def ICRNL : Nat := 0x0100
def INPCK : Nat := 0x0010
def ISTRIP : Nat := 0x0020
def IXON : Nat := 0x0400
def OPOST : Nat := 0x0001
def CS8 : Nat := 0x0030
def ECHOFLAG : Nat := 0x0008
def ICANON : Nat := 0x0002
def IEXTEN : Nat := 0x8000

/-- Bitwise complement of a mask within a 32-bit flag word. -/
def compl32 (m : Nat) : Nat := (2 ^ 32 - 1) ^^^ m

/-- The modified discipline installed by `__enable_raw_mode` (rsh.c:174-183):
a copy of the original with the listed flags cleared or set. -/
def rawFrom (orig : Termios) : Termios :=
  { c_iflag := orig.c_iflag &&& compl32 (BRKINT ||| ICRNL ||| INPCK ||| ISTRIP ||| IXON)
    c_oflag := orig.c_oflag &&& compl32 OPOST
    c_cflag := orig.c_cflag ||| CS8
    c_lflag := orig.c_lflag &&& compl32 (ECHOFLAG ||| ICANON ||| IEXTEN) }

/-- Terminal-related shell state: the captured `orig_termios` global
(rsh.c:29), the discipline currently installed in the driver, and whether
`atexit(__disable_raw_mode)` has been registered (rsh.c:171). -/
structure TermSession where
  orig_termios : Termios
  terminal : Termios
  atexitRestore : Bool
deriving DecidableEq

/-- `__enable_raw_mode` (rsh.c:166-184): `tcgetattr` captures the current
discipline into `orig_termios`, registers the restore callback with
`atexit`, and `tcsetattr` installs the modified copy. -/
def enable_raw_mode (term : Termios) : TermSession :=
  { orig_termios := term, terminal := rawFrom term, atexitRestore := true }

/-- `__disable_raw_mode` (rsh.c:144-147): `tcsetattr` writes the captured
original discipline back to the driver. -/
def disable_raw_mode (s : TermSession) : TermSession :=
  { s with terminal := s.orig_termios }

/-- The ways the shell process terminates: the `exit` builtin (rsh.c:229-231,
which calls `__handle_ctrlc`), an interrupt delivered at the prompt with no
foreground process (rsh.c:195-201), or any other `exit(0)`. -/
inductive ExitPath where
  | exitBuiltin
  | interruptAtPrompt
  | normalExit

/-- Process termination: every path goes through `exit(0)` (rsh.c:200), which
runs the registered `atexit` callbacks, here `__disable_raw_mode`. -/
def shellExit (i : ExitPath) (s : TermSession) : TermSession :=
  match i with
  | ExitPath.exitBuiltin => if s.atexitRestore then disable_raw_mode s else s
  | ExitPath.interruptAtPrompt => if s.atexitRestore then disable_raw_mode s else s
  | ExitPath.normalExit => if s.atexitRestore then disable_raw_mode s else s

/-- `__handle_ctrlz` (rsh.c:205-216): when a foreground process is tracked
(`running_process != 0`) it forwards SIGTSTP, waits with WUNTRACED, and if
`WIFSTOPPED(status)` (the `stopped` argument here) appends a job record with
the placeholder command string `"command"` and status 1; in either case it
then clears `running_process`.  With no foreground process it does nothing. -/
def handle_ctrlz (stopped : Bool) (jobs : List JobNode) (running : Int) :
    List JobNode × Int :=
  if running ≠ 0 then
    ((if stopped then append_job running "command" 1 jobs else jobs), 0)
  else (jobs, running)

/-- Whitespace recognized by the argument tokenizer: the delimiter set
`" \t\n"` passed to `strtok`/`strtok_r` (rsh.c:554, 613). -/
def isWsChar (c : Char) : Bool :=
  c = ' ' || c = '\t' || c = '\n'

/-- The pipe delimiter set `"|"` (rsh.c:606). -/
def isPipeChar (c : Char) : Bool :=
  c = '|'

/-- `strtok_r` behaviour on a fixed delimiter predicate: scans the input,
skipping delimiter characters, and returns the maximal runs of
non-delimiter characters in order.  `acc` holds the (reversed) token being
accumulated. -/
def strtokAux (p : Char → Bool) : List Char → List Char → List (List Char)
  | [], acc => if acc.isEmpty then [] else [acc.reverse]
  | c :: cs, acc =>
    if p c then
      if acc.isEmpty then strtokAux p cs []
      else acc.reverse :: strtokAux p cs []
    else strtokAux p cs (c :: acc)

/-- All tokens of a character list under delimiter predicate `p`, i.e. the
full sequence produced by the `strtok_r` loops in rsh.c. -/
def strtokAll (p : Char → Bool) (cs : List Char) : List (List Char) :=
  strtokAux p cs []

/-- `__parse_pipeline` (rsh.c:601-630): the outer `strtok_r` loop splits the
line on `|` into stage strings; the inner loop splits each stage on
space/tab/newline into its argument vector. -/
def parse_pipeline (line : List Char) : List (List (List Char)) :=
  (strtokAll isPipeChar line).map (strtokAll isWsChar)

/-- Leading and trailing whitespace stripped from a stage string. -/
def trimChars (cs : List Char) : List Char :=
  ((cs.dropWhile isWsChar).reverse.dropWhile isWsChar).reverse

/-- Whitespace skipped by C `atoi` before the number. -/
def isSpaceChar (c : Char) : Bool :=
  c = ' ' || c = '\t' || c = '\n' || c = '\x0b' || c = '\x0c' || c = '\r'

/-- Digit-consuming loop of `atoi`: accumulates decimal digits, stopping at
the first non-digit. -/
def atoiDigits : List Char → Int → Int
  | [], acc => acc
  | c :: cs, acc =>
    if c.isDigit then atoiDigits cs (acc * 10 + (Int.ofNat (c.toNat - 48)))
    else acc

/-- C `atoi` (used at rsh.c:255 and rsh.c:280): skip whitespace, read an
optional sign, then consume digits; a string with no leading digits yields
0. -/
def atoi (s : String) : Int :=
  match s.toList.dropWhile isSpaceChar with
  | '-' :: rest => - atoiDigits rest 0
  | '+' :: rest => atoiDigits rest 0
  | cs => atoiDigits cs 0

/-- Signals the job-control code sends. -/
inductive Sig where
  | sigcont
  | sigint
  | sigtstp
deriving DecidableEq

/-- Observable side effects of the `fg`/`bg` branches of `__handle_input`,
in program order. -/
inductive Effect where
  | usageError (cmd : String)
  | kill (pid : Int) (sig : Sig)
  | tcsetpgrpTo (pgrp : Int)
  | tcsetpgrpSelf
  | waitpidUntraced (pid : Int)
  | sigIgnoreTTOU
  | sigDefaultTTOU
deriving DecidableEq

/-- The `fg` branch of `__handle_input` (rsh.c:249-271): with fewer than two
arguments it prints a usage message and returns -1; otherwise it converts
`argv[1]` with `atoi`, ignores SIGTTOU around transferring the terminal to
that group, signals the whole group with SIGCONT, waits with WUNTRACED for
the next state change, reclaims the terminal for the shell, and returns 0.
It never touches the job list. -/
def fg_command (argv : List String) (jobs : List JobNode) :
    Int × List Effect × List JobNode :=
  if argv.length < 2 then (-1, [Effect.usageError "fg"], jobs)
  else
    let pid := atoi (argv.getD 1 "")
    (0,
     [Effect.sigIgnoreTTOU, Effect.tcsetpgrpTo pid, Effect.sigDefaultTTOU,
      Effect.kill (-pid) Sig.sigcont, Effect.waitpidUntraced pid,
      Effect.sigIgnoreTTOU, Effect.tcsetpgrpSelf, Effect.sigDefaultTTOU],
     jobs)

/-- The `bg` branch of `__handle_input` (rsh.c:273-284): with fewer than two
arguments it prints a usage message and returns -1; otherwise it converts
`argv[1]` with `atoi`, sends SIGCONT to that pid, removes the first
matching job record, and returns 0. -/
def bg_command (argv : List String) (jobs : List JobNode) :
    Int × List Effect × List JobNode :=
  if argv.length < 2 then (-1, [Effect.usageError "bg"], jobs)
  else
    let pid := atoi (argv.getD 1 "")
    (0, [Effect.kill pid Sig.sigcont], remove_job pid jobs)

/-- Shell state relevant to the Job Table invariant: the job list, the
tracked foreground pid (`running_process`), and the set of pids of
currently existing OS processes (to model pid allocation and reuse). -/
structure ShellState where
  jobs : List JobNode
  running : Int
  live : List Int
deriving DecidableEq

/-- Initial state created by `__rsh_get` (rsh.c:649-675): empty job list,
`running_process = 0`, no children. -/
def initState : ShellState :=
  { jobs := [], running := 0, live := [] }

/-- The table-mutating operations of the shell, as the code performs them.
A launch uses a pid the OS is free to choose among pids of no currently
existing process (pid reuse of dead processes is possible).
`launchStopped`: fork on the single-command path, the child stops, and
`__handle_input` appends a Stopped record (rsh.c:363-364) — the same append
is performed by `__handle_ctrlz` (rsh.c:212).  `launchExited`: the child
exits and `__remove_job` is called (rsh.c:366).  `bgResume`: the `bg`
builtin removes the record (rsh.c:282).  `fg` (rsh.c:249-271) performs no
job-list operation at all: if the resumed process stops again the state is
unchanged, and if it exits it is reaped by `waitpid` while its record, if
any, stays behind. -/
inductive Step : ShellState → ShellState → Prop where
  | launchStopped (p : Int) (cmd : String) (s : ShellState)
      (hp : 0 < p) (hfresh : p ∉ s.live) :
      Step s { jobs := append_job p cmd 1 s.jobs, running := 0, live := p :: s.live }
  | launchExited (p : Int) (s : ShellState)
      (hp : 0 < p) (hfresh : p ∉ s.live) :
      Step s { jobs := remove_job p s.jobs, running := 0, live := s.live }
  | bgResume (p : Int) (s : ShellState) :
      Step s { s with jobs := remove_job p s.jobs }
  | fgStopsAgain (p : Int) (s : ShellState) (hlive : p ∈ s.live) :
      Step s s
  | fgExits (p : Int) (s : ShellState) (hlive : p ∈ s.live) :
      Step s { s with live := s.live.erase p }

/-- States the shell can reach from startup. -/
def Reachable (s : ShellState) : Prop :=
  Relation.ReflTransGen Step initState s

/-- The same operations under the additional assumption that the OS never
hands out a pid that still has a (possibly stale) record in the Job Table:
launches are fresh with respect to the table as well as to live pids. -/
inductive StepNR : ShellState → ShellState → Prop where
  | launchStopped (p : Int) (cmd : String) (s : ShellState)
      (hp : 0 < p) (hfresh : p ∉ s.live)
      (htable : p ∉ s.jobs.map fun j => j.pid) :
      StepNR s { jobs := append_job p cmd 1 s.jobs, running := 0, live := p :: s.live }
  | launchExited (p : Int) (s : ShellState)
      (hp : 0 < p) (hfresh : p ∉ s.live) :
      StepNR s { jobs := remove_job p s.jobs, running := 0, live := s.live }
  | bgResume (p : Int) (s : ShellState) :
      StepNR s { s with jobs := remove_job p s.jobs }
  | fgStopsAgain (p : Int) (s : ShellState) (hlive : p ∈ s.live) :
      StepNR s s
  | fgExits (p : Int) (s : ShellState) (hlive : p ∈ s.live) :
      StepNR s { s with live := s.live.erase p }

/-- States reachable when pids of stale records are never reused. -/
def ReachableNR (s : ShellState) : Prop :=
  Relation.ReflTransGen StepNR initState s

/-! ### Helper lemmas -/

/-- Removing a job yields a sublist of the original job list. -/
theorem remove_job_sublist (p : Int) :
    ∀ jobs : List JobNode, List.Sublist (remove_job p jobs) jobs := by
  intro jobs
  induction jobs with
  | nil => exact List.Sublist.refl []
  | cons j rest ih =>
    by_cases h : j.pid = p
    · simp [remove_job, h]
    · simpa [remove_job, h] using ih.cons₂ j

/-- A fold that overwrites its accumulator with every element returns the
last element (or the initial value on the empty list). -/
theorem foldl_keep_last (ss : List Nat) :
    ∀ a : Nat, ss.foldl (fun _ s => s) a = ss.getLastD a := by
  induction ss with
  | nil => intro a; rfl
  | cons c cs ih =>
    intro a
    rw [List.foldl_cons, List.getLastD_cons]
    exact ih c

/-- Folding `append_history` over submitted lines appends them all, in
order, to the accumulator. -/
theorem foldl_append_history (lines : List String) :
    ∀ acc : List String, lines.foldl append_history acc = acc ++ lines := by
  induction lines with
  | nil => intro acc; simp
  | cons l ls ih => intro acc; simp [append_history, ih (acc ++ [l])]

/-- On input made entirely of delimiter characters the tokenizer only
flushes its pending token. -/
theorem strtokAux_all_sat (p : Char → Bool) (ds : List Char)
    (h : ∀ c ∈ ds, p c = true) :
    ∀ acc : List Char,
      strtokAux p ds acc = if acc.isEmpty then [] else [acc.reverse] := by
  induction ds with
  | nil => intro acc; rfl
  | cons c cs ih =>
    intro acc
    have hc : p c = true := h c (by simp)
    have hrest : ∀ x ∈ cs, p x = true := fun x hx => h x (by simp [hx])
    by_cases ha : acc.isEmpty
    · simp [strtokAux, hc, ha, ih hrest []]
    · simp [strtokAux, hc, ha, ih hrest []]

/-- Trailing delimiter characters do not change the token sequence. -/
theorem strtokAux_append_sat (p : Char → Bool) (ds : List Char)
    (h : ∀ c ∈ ds, p c = true) :
    ∀ (cs acc : List Char), strtokAux p (cs ++ ds) acc = strtokAux p cs acc := by
  intro cs
  induction cs with
  | nil =>
    intro acc
    simp only [List.nil_append]
    rw [strtokAux_all_sat p ds h acc]
    rfl
  | cons c cs ih =>
    intro acc
    by_cases hc : p c
    · by_cases ha : acc.isEmpty <;>
        simp [List.cons_append, strtokAux, hc, ha, ih]
    · simp [List.cons_append, strtokAux, hc, ih]

/-- Leading delimiter characters do not change the token sequence. -/
theorem strtokAux_dropWhile (p : Char → Bool) :
    ∀ cs : List Char, strtokAux p (cs.dropWhile p) [] = strtokAux p cs [] := by
  intro cs
  induction cs with
  | nil => rfl
  | cons c cs ih =>
    by_cases hc : p c
    · rw [List.dropWhile_cons, if_pos hc, ih]
      simp [strtokAux, hc]
    · rw [List.dropWhile_cons, if_neg hc]

/-- Tokenizing a whitespace-trimmed stage gives the same argument vector as
tokenizing the stage itself. -/
theorem strtokAll_trim (cs : List Char) :
    strtokAll isWsChar (trimChars cs) = strtokAll isWsChar cs := by
  unfold strtokAll trimChars
  rw [← strtokAux_dropWhile isWsChar cs]
  set ys := cs.dropWhile isWsChar with hys
  have hsplit :
      (ys.reverse.dropWhile isWsChar).reverse ++ (ys.reverse.takeWhile isWsChar).reverse
        = ys := by
    rw [← List.reverse_append, List.takeWhile_append_dropWhile, List.reverse_reverse]
  have hsat : ∀ c ∈ (ys.reverse.takeWhile isWsChar).reverse, isWsChar c = true := by
    intro c hm
    exact List.mem_takeWhile_imp (List.mem_reverse.mp hm)
  calc strtokAux isWsChar (ys.reverse.dropWhile isWsChar).reverse []
      = strtokAux isWsChar
          ((ys.reverse.dropWhile isWsChar).reverse ++
            (ys.reverse.takeWhile isWsChar).reverse) [] := by
        rw [strtokAux_append_sat isWsChar _ hsat]
    _ = strtokAux isWsChar ys [] := by rw [hsplit]

/-- Inductive invariant for the no-reuse transition system: the pids in the
job list are pairwise distinct. -/
theorem reachableNR_nodup (s : ShellState) (h : ReachableNR s) :
    (s.jobs.map fun j => j.pid).Nodup := by
  induction h with
  | refl => simp [initState]
  | tail hsteps hstep ih =>
    cases hstep with
    | launchStopped p cmd _ hp hfresh htable =>
      exact List.nodup_cons.mpr ⟨htable, ih⟩
    | launchExited p _ hp hfresh =>
      exact ih.sublist ((remove_job_sublist p _).map fun j => j.pid)
    | bgResume p _ =>
      exact ih.sublist ((remove_job_sublist p _).map fun j => j.pid)
    | fgStopsAgain p _ hlive => exact ih
    | fgExits p _ hlive => exact ih

/-! ### Claim theorems -/

/-- Claim C1. The claim states that on exec failure every launched child
exits with status 127 on both the single-command path and every pipeline
stage.  The single-command child (rsh.c:327) does call `_exit(127)`, but a
pipeline-stage child (rsh.c:417) has no statement after `execvp`: on
failure it falls through into the shell code below instead of exiting, so
the code contradicts the 127 contract on the pipeline path. -/
theorem C1_exec_failure_exit_status :
    singleCommandChild false = ChildCont.exited 127 ∧
    pipelineStageChild false = ChildCont.fallsThrough ∧
    pipelineStageChild false ≠ ChildCont.exited 127 := by
  refine ⟨rfl, rfl, ?_⟩
  decide

/-- Claim C2. For a pipeline whose stages all forked, the result returned by
`__handle_pipeline` is `WEXITSTATUS` of the status written by the last
wait, i.e. the exit status of the last stage, independent of every earlier
stage. -/
theorem C2_pipeline_last_stage_status (ss : List Nat) (_hN : 2 ≤ ss.length) :
    handle_pipeline_result ss = wexitstatus (ss.getLastD 0) ∧
    (∀ ts : List Nat, ts.getLastD 0 = ss.getLastD 0 →
      handle_pipeline_result ts = handle_pipeline_result ss) ∧
    (∀ e : Nat, e < 256 → ss.getLastD 0 = 256 * e →
      handle_pipeline_result ss = e) := by
  have hmain : ∀ ts : List Nat,
      handle_pipeline_result ts = wexitstatus (ts.getLastD 0) := by
    intro ts
    unfold handle_pipeline_result pipelineWaitStatus
    rw [foldl_keep_last]
  refine ⟨hmain ss, ?_, ?_⟩
  · intro ts hts
    rw [hmain ts, hmain ss, hts]
  · intro e he hlast
    rw [hmain ss, hlast]
    unfold wexitstatus
    rw [Nat.mul_div_cancel_left e (by norm_num : (0 : Nat) < 256)]
    exact Nat.mod_eq_of_lt he

/-- Witness for C2: a two-stage pipeline whose stages exited 3 and 7
reports 7. -/
theorem C2_witness :
    2 ≤ ([256 * 3, 256 * 7] : List Nat).length ∧
    handle_pipeline_result [256 * 3, 256 * 7] = 7 :=
  ⟨by decide,
    (C2_pipeline_last_stage_status [256 * 3, 256 * 7] (by decide)).2.2 7
      (by decide) (by decide)⟩

/-- Claim C3. `__enable_raw_mode` captures the startup discipline and
installs the modified one; on every exit path the `atexit`-registered
`__disable_raw_mode` writes the captured original back, so the discipline
observed after exit equals the one captured at startup (round trip). -/
theorem C3_terminal_round_trip (t : Termios) (i : ExitPath) :
    (enable_raw_mode t).terminal = rawFrom t ∧
    (shellExit i (enable_raw_mode t)).terminal = t ∧
    (disable_raw_mode (enable_raw_mode t)).terminal = t := by
  refine ⟨rfl, ?_, rfl⟩
  cases i <;> rfl

/-- Counterexample for C4: submitting the lines `ls`, the empty line, and
`pwd` makes the History Log display the empty line too, so the displayed
sequence is not the subsequence of non-empty submitted lines. -/
theorem C4_history_counterexample :
    display_history (submit_lines ["ls", "", "pwd"]) = ["ls", "", "pwd"] ∧
    (["ls", "", "pwd"].filter fun l => l != "") = ["ls", "pwd"] ∧
    display_history (submit_lines ["ls", "", "pwd"]) ≠
      (["ls", "", "pwd"].filter fun l => l != "") := by
  refine ⟨by decide, by decide, by decide⟩

/-- Claim C4 as amended: the History Log displays exactly the full sequence
of submitted lines, empty ones included, in submission order, with no
entry removed, mutated, reordered, or deduplicated; in particular every
non-empty submitted line is present even if it later failed to execute. -/
theorem C4_history_is_all_submitted_lines (lines : List String) :
    display_history (submit_lines lines) = lines := by
  unfold display_history submit_lines
  simpa using foldl_append_history lines []

/-- Claim C5. Tokenization splits on the pipe character first and then each
stage on whitespace runs; trimming the whitespace of a stage before the
whitespace split changes nothing, `ls | grep foo | wc -l` yields the three
expected argument vectors, and whitespace around the pipe does not change
the parse. -/
theorem C5_tokenization (line : List Char) :
    parse_pipeline line =
      ((strtokAll isPipeChar line).map fun st => strtokAll isWsChar (trimChars st)) ∧
    parse_pipeline (String.toList "ls | grep foo | wc -l") =
      [[String.toList "ls"], [String.toList "grep", String.toList "foo"],
       [String.toList "wc", String.toList "-l"]] ∧
    parse_pipeline (String.toList "echo hi  |  cat") =
      parse_pipeline (String.toList "echo hi|cat") := by
  refine ⟨?_, by decide, by decide⟩
  unfold parse_pipeline
  have hfun : (fun st => strtokAll isWsChar (trimChars st)) = strtokAll isWsChar :=
    funext strtokAll_trim
  rw [hfun]

/-- Counterexample for C6: a job stopped and recorded under pid 1 is resumed
with `fg` and exits; `fg` removes nothing, so the stale record stays while
pid 1 dies.  When the OS reuses pid 1 for the next launched command and it
stops, a second record for pid 1 is inserted: a reachable state violates
the at-most-one-record-per-pid invariant. -/
theorem C6_job_table_duplicate_reachable :
    Reachable { jobs := [⟨1, "b", 1⟩, ⟨1, "a", 1⟩], running := 0, live := [1] } ∧
    ¬ atMostOnePerPid [⟨1, "b", 1⟩, ⟨1, "a", 1⟩] := by
  constructor
  · have h1 : Step initState { jobs := [⟨1, "a", 1⟩], running := 0, live := [1] } := by
      have h := Step.launchStopped 1 "a" initState (by norm_num) (by simp [initState])
      simpa [initState, append_job] using h
    have h2 : Step { jobs := [⟨1, "a", 1⟩], running := 0, live := [1] }
        { jobs := [⟨1, "a", 1⟩], running := 0, live := [] } := by
      have h := Step.fgExits 1 ⟨[⟨1, "a", 1⟩], 0, [1]⟩ (by simp)
      simpa [List.erase_cons_head] using h
    have h3 : Step { jobs := [⟨1, "a", 1⟩], running := 0, live := [] }
        { jobs := [⟨1, "b", 1⟩, ⟨1, "a", 1⟩], running := 0, live := [1] } := by
      have h := Step.launchStopped 1 "b" ⟨[⟨1, "a", 1⟩], 0, []⟩ (by norm_num) (by simp)
      simpa [append_job] using h
    exact Relation.ReflTransGen.tail
      (Relation.ReflTransGen.tail (Relation.ReflTransGen.single h1) h2) h3
  · intro hinv
    have hle := hinv 1
    have hc : countPid 1 [⟨1, "b", 1⟩, ⟨1, "a", 1⟩] = 2 := by decide
    omega

/-- Claim C6 as amended: the at-most-one-record-per-pid invariant holds in
every reachable state provided the OS never hands a launched command a pid
that still has a (stale) record in the Job Table; without that assumption
the fg-resume path, which removes nothing, makes duplicates reachable. -/
theorem C6_invariant_without_pid_reuse (s : ShellState) (h : ReachableNR s) :
    atMostOnePerPid s.jobs := by
  intro p
  unfold countPid
  exact List.nodup_iff_count_le_one.mp (reachableNR_nodup s h) p

/-- Witness for C6: the state after one launched command stopped is
reachable without pid reuse and satisfies the invariant. -/
theorem C6_witness :
    ReachableNR { jobs := [⟨1, "a", 1⟩], running := 0, live := [1] } ∧
    atMostOnePerPid [⟨1, "a", 1⟩] := by
  have hstep : StepNR initState { jobs := [⟨1, "a", 1⟩], running := 0, live := [1] } := by
    have h := StepNR.launchStopped 1 "a" initState (by norm_num)
      (by simp [initState]) (by simp [initState])
    simpa [initState, append_job] using h
  have hreach : ReachableNR { jobs := [⟨1, "a", 1⟩], running := 0, live := [1] } :=
    Relation.ReflTransGen.single hstep
  exact ⟨hreach, C6_invariant_without_pid_reuse _ hreach⟩

/-- Counterexample for C7: a stale record for pid 1 is reachable (a stopped
job resumed with `fg` exits, its record stays, pid 1 dies and is free for
reuse); when the OS then hands pid 1 to the next launched command
(`running_process` is set to it, rsh.c:345) and SIGTSTP handling runs as it
stops, the unconditional append (rsh.c:212) leaves TWO records for pid 1,
not the exactly one the claim requires. -/
theorem C7_counterexample :
    Reachable { jobs := [⟨1, "a", 1⟩], running := 0, live := [] } ∧
    (handle_ctrlz true [⟨1, "a", 1⟩] 1).1 = [⟨1, "command", 1⟩, ⟨1, "a", 1⟩] ∧
    countPid 1 (handle_ctrlz true [⟨1, "a", 1⟩] 1).1 ≠ 1 ∧
    (handle_ctrlz true [⟨1, "a", 1⟩] 1).2 = 0 := by
  refine ⟨?_, by decide, by decide, by decide⟩
  have h1 : Step initState { jobs := [⟨1, "a", 1⟩], running := 0, live := [1] } := by
    have h := Step.launchStopped 1 "a" initState (by norm_num) (by simp [initState])
    simpa [initState, append_job] using h
  have h2 : Step { jobs := [⟨1, "a", 1⟩], running := 0, live := [1] }
      { jobs := [⟨1, "a", 1⟩], running := 0, live := [] } := by
    have h := Step.fgExits 1 ⟨[⟨1, "a", 1⟩], 0, [1]⟩ (by simp)
    simpa [List.erase_cons_head] using h
  exact Relation.ReflTransGen.tail (Relation.ReflTransGen.single h1) h2

/-- Claim C7 as amended: when SIGTSTP handling runs while a foreground
process is tracked, that process actually stops, and the process has no
prior record in the Job Table (true whenever its pid is not the reused pid
of a stale record), the job list afterwards holds exactly one record for
that pid, that record is Stopped (status 1), and `running_process` is
cleared to the none sentinel 0.  Without the no-prior-record proviso the
handler appends unconditionally and a stale record yields two records. -/
theorem C7_stop_handler_single_stopped_record (p : Int) (jobs : List JobNode)
    (hp : p ≠ 0) (hnone : countPid p jobs = 0) :
    countPid p (handle_ctrlz true jobs p).1 = 1 ∧
    (∀ j ∈ (handle_ctrlz true jobs p).1, j.pid = p → j.status = 1) ∧
    (handle_ctrlz true jobs p).2 = 0 := by
  have hjobs : (handle_ctrlz true jobs p).1 = append_job p "command" 1 jobs := by
    simp [handle_ctrlz, hp]
  have hrun : (handle_ctrlz true jobs p).2 = 0 := by
    simp [handle_ctrlz, hp]
  refine ⟨?_, ?_, hrun⟩
  · rw [hjobs]
    show List.count p (p :: (jobs.map fun j => j.pid)) = 1
    rw [List.count_cons_self]
    unfold countPid at hnone
    omega
  · rw [hjobs]
    intro j hj hpid
    rcases List.mem_cons.mp hj with hhead | htail
    · rw [hhead]
    · exfalso
      have hmem : p ∈ jobs.map fun x => x.pid := List.mem_map.mpr ⟨j, htail, hpid⟩
      exact (List.count_eq_zero.mp hnone) hmem

/-- Witness for C7: stopping foreground pid 5 with an empty job list leaves
exactly one Stopped record and clears the foreground pid. -/
theorem C7_witness :
    ((5 : Int) ≠ 0 ∧ countPid 5 ([] : List JobNode) = 0) ∧
    countPid 5 (handle_ctrlz true [] 5).1 = 1 ∧
    (handle_ctrlz true [] 5).2 = 0 :=
  ⟨⟨by decide, by decide⟩,
    (C7_stop_handler_single_stopped_record 5 [] (by decide) (by decide)).1,
    (C7_stop_handler_single_stopped_record 5 [] (by decide) (by decide)).2.2⟩

/-- Counterexample for C8: running `fg 5` on a table holding the Stopped
record for pid 5 leaves the table unchanged, whereas the claim requires the
record to be removed. -/
theorem C8_fg_leaves_record :
    (fg_command ["fg", "5"] [⟨5, "vim", 1⟩]).2.2 = [⟨5, "vim", 1⟩] ∧
    remove_job 5 [⟨5, "vim", 1⟩] = [] ∧
    (fg_command ["fg", "5"] [⟨5, "vim", 1⟩]).2.2 ≠ remove_job 5 [⟨5, "vim", 1⟩] := by
  refine ⟨by decide, by decide, by decide⟩

/-- Claim C8 as amended: `fg <pid>` transfers terminal foreground ownership
to that group, continues it, blocks until its next state change, then
reclaims foreground ownership for the shell — but it does not remove the
Job Record: the Job Table is returned unchanged. -/
theorem C8_fg_waits_and_keeps_table (argv : List String) (jobs : List JobNode)
    (h : 2 ≤ argv.length) :
    fg_command argv jobs =
      (0,
       [Effect.sigIgnoreTTOU, Effect.tcsetpgrpTo (atoi (argv.getD 1 "")),
        Effect.sigDefaultTTOU, Effect.kill (-(atoi (argv.getD 1 ""))) Sig.sigcont,
        Effect.waitpidUntraced (atoi (argv.getD 1 "")), Effect.sigIgnoreTTOU,
        Effect.tcsetpgrpSelf, Effect.sigDefaultTTOU],
       jobs) := by
  unfold fg_command
  rw [if_neg (by omega)]

/-- Witness for C8: the amended behaviour at `fg 5` on a one-record table. -/
theorem C8_witness :
    2 ≤ (["fg", "5"] : List String).length ∧
    fg_command ["fg", "5"] [⟨5, "vim", 1⟩] =
      (0,
       [Effect.sigIgnoreTTOU, Effect.tcsetpgrpTo 5, Effect.sigDefaultTTOU,
        Effect.kill (-5) Sig.sigcont, Effect.waitpidUntraced 5,
        Effect.sigIgnoreTTOU, Effect.tcsetpgrpSelf, Effect.sigDefaultTTOU],
       [⟨5, "vim", 1⟩]) :=
  ⟨by decide,
    (C8_fg_waits_and_keeps_table ["fg", "5"] [⟨5, "vim", 1⟩] (by decide)).trans
      (by decide)⟩

/-- Counterexample for C9: `bg abc` has a non-numeric argument, yet it is
not reported as a usage error and it is not a no-op: `atoi` yields 0 and
SIGCONT is sent to pid 0; the `fg` branch likewise signals group 0. -/
theorem C9_nonnumeric_sends_signal :
    (bg_command ["bg", "abc"] []).1 = 0 ∧
    (bg_command ["bg", "abc"] []).2.1 = [Effect.kill 0 Sig.sigcont] ∧
    Effect.kill 0 Sig.sigcont ∈ (fg_command ["fg", "abc"] []).2.1 := by
  refine ⟨by decide, by decide, by decide⟩

/-- Claim C9 as amended: only a missing argument is detected: it is reported
as a usage error and the command is a no-op (no signal, table unchanged,
result -1, session continues).  A non-numeric argument is not validated:
`atoi` maps it to 0 and a continue signal is sent to pid/group 0, the
table changed only by removing a pid-0 record (normally absent). -/
theorem C9_usage_validation (argv : List String) (jobs : List JobNode) :
    (argv.length < 2 →
      fg_command argv jobs = (-1, [Effect.usageError "fg"], jobs) ∧
      bg_command argv jobs = (-1, [Effect.usageError "bg"], jobs)) ∧
    (2 ≤ argv.length → atoi (argv.getD 1 "") = 0 →
      bg_command argv jobs = (0, [Effect.kill 0 Sig.sigcont], remove_job 0 jobs) ∧
      Effect.kill 0 Sig.sigcont ∈ (fg_command argv jobs).2.1) ∧
    atoi "abc" = 0 := by
  refine ⟨?_, ?_, by decide⟩
  · intro h
    constructor <;> simp [fg_command, bg_command, h]
  · intro h h0
    have h0g : atoi (argv[1]?.getD "") = 0 := by simpa [List.getD] using h0
    constructor
    · simp [bg_command, Nat.not_lt.mpr h, h0, h0g]
    · simp [fg_command, Nat.not_lt.mpr h, h0, h0g]

/-- Witness for C9: missing argument on `bg` is a reported no-op; the
non-numeric `bg abc` sends SIGCONT to pid 0. -/
theorem C9_witness :
    ((["bg"] : List String).length < 2 ∧
      bg_command ["bg"] [] = (-1, [Effect.usageError "bg"], [])) ∧
    (2 ≤ (["bg", "abc"] : List String).length ∧
      bg_command ["bg", "abc"] [] = (0, [Effect.kill 0 Sig.sigcont], [])) :=
  ⟨⟨by decide, ((C9_usage_validation ["bg"] []).1 (by decide)).2⟩,
   ⟨by decide, by
      have h := ((C9_usage_validation ["bg", "abc"] []).2.1 (by decide) (by decide)).1
      simpa using h⟩⟩

/-- Claim C10. `__remove_job` on a pid with no record leaves the table
exactly unchanged; on a pid with one or more records it removes exactly the
first matching record and leaves every other record in place. -/
theorem C10_remove_job_first_match (p : Int) (jobs : List JobNode) :
    (p ∉ (jobs.map fun j => j.pid) → remove_job p jobs = jobs) ∧
    (∀ pre j suf, jobs = pre ++ j :: suf → j.pid = p →
      p ∉ (pre.map fun x => x.pid) → remove_job p jobs = pre ++ suf) := by
  have key : ∀ (pre : List JobNode) (j : JobNode) (suf : List JobNode),
      j.pid = p → p ∉ (pre.map fun x => x.pid) →
      remove_job p (pre ++ j :: suf) = pre ++ suf := by
    intro pre
    induction pre with
    | nil =>
      intro j suf hpid _
      simp [remove_job, hpid]
    | cons q pre ih =>
      intro j suf hpid habs
      have hq : q.pid ≠ p := fun hc => habs (by simp [hc])
      simp only [List.cons_append, remove_job, List.append_eq, if_neg hq]
      rw [ih j suf hpid fun hm => habs (by simp [hm])]
  constructor
  · induction jobs with
    | nil => intro _; rfl
    | cons q rest ih =>
      intro habs
      have hq : q.pid ≠ p := by
        intro hc
        exact habs (by simp [hc])
      simp [remove_job, hq, ih fun hm => habs (by simp [hm])]
  · intro pre j suf heq hpid habs
    subst heq
    exact key pre j suf hpid habs

/-- Witness for C10: removal of an absent pid is the identity; removal of a
duplicated pid removes only the first matching record. -/
theorem C10_witness :
    ((9 : Int) ∉ (([⟨1, "a", 1⟩, ⟨2, "b", 0⟩] : List JobNode).map fun j => j.pid) ∧
      remove_job 9 [⟨1, "a", 1⟩, ⟨2, "b", 0⟩] = [⟨1, "a", 1⟩, ⟨2, "b", 0⟩]) ∧
    remove_job 2 [⟨1, "a", 1⟩, ⟨2, "b", 1⟩, ⟨2, "c", 0⟩] = [⟨1, "a", 1⟩, ⟨2, "c", 0⟩] :=
  ⟨⟨by decide, (C10_remove_job_first_match 9 _).1 (by decide)⟩,
   (C10_remove_job_first_match 2 [⟨1, "a", 1⟩, ⟨2, "b", 1⟩, ⟨2, "c", 0⟩]).2
     [⟨1, "a", 1⟩] ⟨2, "b", 1⟩ [⟨2, "c", 0⟩] (by decide) (by decide) (by decide)⟩
